import Mathlib

/-!
# Verification of the FakeNews claim-verification pipeline (`fakenews.py`)

Shallow embedding of the core pipeline of `fakenews.py`: the langgraph
state machine with nodes `plan_claims`, `extract_next_claim`, `verify_claim`,
`compute_score`, `final_explanation`, its two router functions, and the
structured-response extractor `extract_json`.

External collaborators (the chat model and the search tool) are modelled as
oracles.  A generation call followed by `extract_json` on its response is
modelled as a single oracle answer of type `Except Unit PyDict`: Python's
`json.loads` applied to a string that starts with `{` either fails or yields
a dict, so the reachable outcomes of `model.invoke` + `extract_json` are
exactly "an exception was raised" or "some dict was parsed".  A search call
is an oracle answer of type `Except Unit String` (`Except.error` models the
tool raising).  Oracles are indexed by a per-node call counter so distinct
invocations may behave differently.

Python runtime values appearing in the pipeline (parsed JSON fields) are
modelled by `PyVal`; uncaught Python exceptions (KeyError, IndexError,
TypeError, and collaborator exceptions raised outside a `try`) are modelled
by `Except.error ()` of the node/step functions.
-/

namespace FakeNews

/-- Python values that can result from `json.loads` (plus `None`). -/
inductive PyVal : Type where
  | none : PyVal
  | bool : Bool → PyVal
  | int : Int → PyVal
  | str : String → PyVal
  | list : List PyVal → PyVal
  | dict : List (String × PyVal) → PyVal
deriving Repr

/-- A parsed JSON object: what `json.loads` returns on a brace-delimited text. -/
abbrev PyDict := List (String × PyVal)

/-- Association-list lookup: Python `d[k]` / the hit case of `d.get(k)`. -/
def lookupD (d : PyDict) (k : String) : Option PyVal :=
  match d with
  | [] => Option.none
  | (k', v) :: rest => if k' == k then some v else lookupD rest k

/-- Python `d.get(k, default)`. -/
def dictGet (d : PyDict) (k : String) (default : PyVal) : PyVal :=
  (lookupD d k).getD default

/-- Python truthiness of a value (`if parsed.get("done"):`). -/
def pyTruthy : PyVal → Bool
  | PyVal.none => false
  | PyVal.bool b => b
  | PyVal.int n => n != 0
  | PyVal.str s => s != ""
  | PyVal.list l => !l.isEmpty
  | PyVal.dict d => !d.isEmpty

/-- Python `len(v)`: defined for `str`, `list`, `dict`; `TypeError` (`none`)
otherwise. -/
def pyLen : PyVal → Option Nat
  | PyVal.str s => some s.length
  | PyVal.list l => some l.length
  | PyVal.dict d => some d.length
  | _ => Option.none

/-- Python `v == t` for a string literal `t`: true exactly when `v` is a
`str` equal to `t` character for character. -/
def pyEqStr (v : PyVal) (t : String) : Bool :=
  match v with
  | PyVal.str s => s == t
  | _ => false

mutual
/-- Python `str(v)` as used by f-string interpolation.  For scalar values this
is exact; for `list`/`dict` Python falls back to `repr`, which we reproduce up
to the escaping stdlib `repr` performs inside string literals (no claim
depends on the rendering of non-scalar values). -/
def pyStr : PyVal → String
  | PyVal.none => "None"
  | PyVal.bool true => "True"
  | PyVal.bool false => "False"
  | PyVal.int n => toString n
  | PyVal.str s => s
  | PyVal.list l => "[" ++ pyReprList l ++ "]"
  | PyVal.dict d => "\x7b" ++ pyReprDict d ++ "\x7d"

/-- Python `repr` of a value appearing inside a container. -/
def pyRepr : PyVal → String
  | PyVal.str s => "'" ++ s ++ "'"
  | PyVal.none => "None"
  | PyVal.bool true => "True"
  | PyVal.bool false => "False"
  | PyVal.int n => toString n
  | PyVal.list l => "[" ++ pyReprList l ++ "]"
  | PyVal.dict d => "\x7b" ++ pyReprDict d ++ "\x7d"

/-- Comma-separated `repr`s of list elements. -/
def pyReprList : List PyVal → String
  | [] => ""
  | [v] => pyRepr v
  | v :: rest => pyRepr v ++ ", " ++ pyReprList rest

/-- Comma-separated `repr`s of dict entries. -/
def pyReprDict : List (String × PyVal) → String
  | [] => ""
  | [(k, v)] => "'" ++ k ++ "': " ++ pyRepr v
  | (k, v) :: rest => "'" ++ k ++ "': " ++ pyRepr v ++ ", " ++ pyReprDict rest
end

/-! ## `extract_json` (source lines 24–28)

```python
def extract_json(text: str):
    match = re.search(r"\{.*\}", text, re.S)
    if not match:
        raise ValueError("No JSON found")
    return json.loads(match.group())
```

With `re.S`, `.` matches any character.  The leftmost match of `\{.*\}` with
a greedy `.*` runs from the first `{` of the text to the last `}` of the
text, provided that `}` lies strictly after that `{`; otherwise there is no
match.  `json.loads` is Python stdlib; it is passed in as the parameter
`loads` (`Option.none` models it raising).  `Option.none` of the result
models `extract_json` raising (`ValueError` or a `json.loads` error). -/

/-- Index of the first occurrence of `c`, if any. -/
def firstIdx (c : Char) : List Char → Option Nat
  | [] => Option.none
  | a :: rest =>
      if a = c then some 0
      else (firstIdx c rest).map (· + 1)

/-- Index of the last occurrence of `c`, if any. -/
def lastIdx (c : Char) : List Char → Option Nat
  | [] => Option.none
  | a :: rest =>
      match lastIdx c rest with
      | some j => some (j + 1)
      | Option.none => if a = c then some 0 else Option.none

/-- Function `extract_json`, parameterised by the stdlib JSON parser `loads`. -/
def extract_json (loads : String → Option PyVal) (text : String) : Option PyVal :=
  let cs := text.data
  match firstIdx '\x7b' cs, lastIdx '\x7d' cs with
  | some i, some j =>
      if i < j then loads (String.mk ((cs.drop i).take (j - i + 1)))
      else Option.none
  | _, _ => Option.none

/-! ## Pipeline state (source lines 31–40) -/

/-- One entry of `claim_results`: the dict
`{"claim": ..., "verdict": ..., "explanation": ...}` built in `verify_claim`. -/
structure ClaimResult : Type where
  claim : PyVal
  verdict : PyVal
  explanation : PyVal
deriving Repr

/-- The `VerifyState` TypedDict.  `plan` is kept as a raw `PyVal` because
`plan_claims` stores whatever JSON value the parsed response's `"plan"` field
holds (a non-list later makes `len(state["plan"])` raise `TypeError`). -/
structure VerifyState : Type where
  A : String
  plan : PyVal
  claims : List PyVal
  current_index : Nat
  claim_results : List ClaimResult
  legitimacy_percentage : ℚ
  final_verdict : String
  D : String
  final_explanation : String
deriving Repr

/-! ## Graph nodes -/

/-- The nodes of the compiled graph, plus `finished` for `END`. -/
inductive Node : Type where
  | plan | extract | verify | score | explain | finished
deriving Repr, DecidableEq

/-- Node `plan_claims` (lines 42–69).  `r` is the outcome of
`extract_json(model.invoke(...).content)`; the bare `except:` turns any
failure into `plan = []`.  On success `plan = parsed.get("plan", [])`. -/
def plan_claims (r : Except Unit PyDict) (s : VerifyState) : VerifyState :=
  let plan :=
    match r with
    | Except.ok d => dictGet d "plan" (PyVal.list [])
    | Except.error _ => PyVal.list []
  { s with
    plan := plan
    claims := []
    current_index := 0
    claim_results := []
    legitimacy_percentage := 0 }

/-- Node `extract_next_claim` (lines 71–102).  On any invoke/parse failure,
`parsed = {"done": True}`.  The accesses `parsed.get("done")` and
`parsed["claim"]` are OUTSIDE the `try`: a parsed dict that is not
done-truthy and lacks `"claim"` raises an uncaught `KeyError`
(`Except.error`). -/
def extract_next_claim (r : Except Unit PyDict) (s : VerifyState) :
    Except Unit VerifyState :=
  let parsed :=
    match r with
    | Except.ok d => d
    | Except.error _ => [("done", PyVal.bool true)]
  if pyTruthy (dictGet parsed "done" PyVal.none) then
    Except.ok s
  else
    match lookupD parsed "claim" with
    | some c => Except.ok { s with claims := s.claims ++ [c] }
    | Option.none => Except.error ()

/-- Router `should_extract_more` (lines 104–107): continue extracting while
`len(state["claims"]) < len(state["plan"])`.  `Option.none` models the
`TypeError` raised by `len` on a non-sized `plan` value. -/
def should_extract_more (s : VerifyState) : Option Node :=
  match pyLen s.plan with
  | some n => some (if s.claims.length < n then Node.extract else Node.verify)
  | Option.none => Option.none

/-- Node `verify_claim` (lines 109–146).  `state["claims"][idx]` is evaluated
first (`IndexError` when out of range), then `search_tool.run(claim)` is
called OUTSIDE the `try` (a search failure propagates), then the `try`
covers `model.invoke` + `extract_json` + the two `.get`s: on failure the
fallback is `verdict = "not legit"`, `explanation = "Verification failed."`. -/
def verify_claim (search : Except Unit String) (gen : Except Unit PyDict)
    (s : VerifyState) : Except Unit VerifyState :=
  let idx := s.current_index
  match s.claims[idx]? with
  | Option.none => Except.error ()
  | some claim =>
    match search with
    | Except.error _ => Except.error ()
    | Except.ok _ =>
      let vd :=
        match gen with
        | Except.ok parsed =>
            (dictGet parsed "verdict" (PyVal.str "not legit"),
             dictGet parsed "explanation" (PyVal.str ""))
        | Except.error _ =>
            (PyVal.str "not legit", PyVal.str "Verification failed.")
      Except.ok
        { s with
          claim_results := s.claim_results ++
            [{ claim := claim, verdict := vd.1, explanation := vd.2 }]
          current_index := idx + 1 }

/-- Router `should_continue_verification` (lines 148–151). -/
def should_continue_verification (s : VerifyState) : Node :=
  if s.current_index < s.claims.length then Node.verify else Node.score

/-- Python `round(q, 2)`: round to 2 decimal places. -/
def round2 (q : ℚ) : ℚ :=
  ((round (q * 100) : ℤ) : ℚ) / 100

/-- Node `compute_score` (lines 153–167).  Pure function of `claim_results`. -/
def compute_score (s : VerifyState) : VerifyState :=
  let results := s.claim_results
  if results.isEmpty then
    { s with legitimacy_percentage := 0, final_verdict := "Fake", D := "Fake" }
  else
    let legit_count : ℚ := results.countP (fun r => pyEqStr r.verdict "legit")
    let percentage : ℚ := (legit_count / results.length) * 100
    let verdict := if 60 ≤ percentage then "Verified" else "Unverified"
    { s with
      legitimacy_percentage := round2 percentage
      final_verdict := verdict
      D := verdict }

/-- One formatted block of the report (lines 174–183). -/
def renderBlock (r : ClaimResult) : String :=
  if pyEqStr r.verdict "not legit" then
    "❌ Claim: " ++ pyStr r.claim ++ "\nWhy it is not legit:\n" ++
      pyStr r.explanation ++ "\n"
  else
    "✅ Claim: " ++ pyStr r.claim ++ "\nWhy it is legit:\n" ++
      pyStr r.explanation ++ "\n"

/-- Python `sep.join(parts)`. -/
def joinSep (sep : String) : List String → String
  | [] => ""
  | [a] => a
  | a :: b :: rest => a ++ sep ++ joinSep sep (b :: rest)

/-- The loop + `"\n".join(formatted)` of `final_explanation` (lines 170–187),
as a pure function of the result list. -/
def formatResults (rs : List ClaimResult) : String :=
  joinSep "\n" (rs.foldl (fun acc r => acc ++ [renderBlock r]) [])

/-- The `final_explanation` graph node. -/
def final_explanation (s : VerifyState) : VerifyState :=
  { s with final_explanation := formatResults s.claim_results }

/-! ## The compiled graph (source lines 191–224)

Edges: entry `plan_claims`; `plan_claims → extract_next_claim`
(unconditional); conditional self-loop on `extract_next_claim` via
`should_extract_more`; conditional self-loop on `verify_claim` via
`should_continue_verification`; `compute_score → final_explanation → END`. -/

/-- The collaborator oracles of one run: outcome of generate+parse per node
invocation, and outcome of each search call, indexed by call count. -/
structure Oracle : Type where
  planGen : Except Unit PyDict
  extractGen : Nat → Except Unit PyDict
  verifySearch : Nat → Except Unit String
  verifyGen : Nat → Except Unit PyDict

/-- A point of the execution: current node, number of extractor calls made,
number of verifier calls made, and the pipeline state. -/
structure Config : Type where
  node : Node
  ecalls : Nat
  vcalls : Nat
  state : VerifyState
deriving Repr

/-- One step of the compiled graph: run the current node, then follow its
(conditional) edge.  `Except.error` models an uncaught Python exception
aborting the run. -/
def step (o : Oracle) (c : Config) : Except Unit Config :=
  match c.node with
  | Node.plan =>
      Except.ok ⟨Node.extract, c.ecalls, c.vcalls, plan_claims o.planGen c.state⟩
  | Node.extract =>
      match extract_next_claim (o.extractGen c.ecalls) c.state with
      | Except.ok s' =>
          match should_extract_more s' with
          | some n => Except.ok ⟨n, c.ecalls + 1, c.vcalls, s'⟩
          | Option.none => Except.error ()
      | Except.error e => Except.error e
  | Node.verify =>
      match verify_claim (o.verifySearch c.vcalls) (o.verifyGen c.vcalls) c.state with
      | Except.ok s' =>
          Except.ok ⟨should_continue_verification s', c.ecalls, c.vcalls + 1, s'⟩
      | Except.error e => Except.error e
  | Node.score =>
      Except.ok ⟨Node.explain, c.ecalls, c.vcalls, compute_score c.state⟩
  | Node.explain =>
      Except.ok ⟨Node.finished, c.ecalls, c.vcalls, final_explanation c.state⟩
  | Node.finished => Except.ok c

/-- Run `k` steps (once aborted, stays aborted; `finished` is a fixpoint). -/
def run (o : Oracle) (k : Nat) (c : Config) : Except Unit Config :=
  match k with
  | 0 => Except.ok c
  | Nat.succ k' =>
      match step o c with
      | Except.ok c' => run o k' c'
      | Except.error e => Except.error e

/-- The state `graph_app.invoke({"A": content})` starts from: only `A` is
set; the entry node immediately overwrites every other field it reads. -/
def initState (a : String) : VerifyState :=
  { A := a, plan := PyVal.list [], claims := [], current_index := 0,
    claim_results := [], legitimacy_percentage := 0, final_verdict := "",
    D := "", final_explanation := "" }

/-- Initial configuration of a run on article `a`. -/
def initConfig (a : String) : Config :=
  ⟨Node.plan, 0, 0, initState a⟩

/-! ## Concrete fixtures used to instantiate the theorems -/

/-- A claim result whose verdict is exactly `"legit"`. -/
def resLegit : ClaimResult :=
  ⟨PyVal.str "c", PyVal.str "legit", PyVal.str "e"⟩

/-- A claim result whose verdict is `"not legit"`. -/
def resNot : ClaimResult :=
  ⟨PyVal.str "c", PyVal.str "not legit", PyVal.str "e"⟩

/-- A claim result whose verdict is the capitalised string `"Legit"`. -/
def resCap : ClaimResult :=
  ⟨PyVal.str "c", PyVal.str "Legit", PyVal.str "e"⟩

/-- A state holding one extracted claim, about to be verified. -/
def sOne : VerifyState :=
  { initState "art" with claims := [PyVal.str "c1"] }

/-- A state with five verified claims, three of them legit (60%). -/
def sFive : VerifyState :=
  { initState "art" with
    claim_results := [resLegit, resLegit, resLegit, resNot, resNot] }

/-- A state whose single result carries the unvalidated verdict `"Legit"`. -/
def sCap : VerifyState :=
  { initState "art" with claim_results := [resCap] }

/-- Oracle: plan `["t"]`, extraction yields one claim, the verification
search call raises. -/
def oAbort : Oracle :=
  ⟨Except.ok [("plan", PyVal.list [PyVal.str "t"])],
   fun _ => Except.ok [("claim", PyVal.str "c1")],
   fun _ => Except.error (),
   fun _ => Except.ok []⟩

/-- Oracle: the planner parse yields an empty plan, yet extraction still
returns a claim. -/
def oEmptyPlan : Oracle :=
  ⟨Except.ok [("plan", PyVal.list [])],
   fun _ => Except.ok [("claim", PyVal.str "x")],
   fun _ => Except.ok "",
   fun _ => Except.ok []⟩

/-- Oracle: plan `["t"]`, every extraction call fails its parse (so every
iteration synthesizes the done signal). -/
def oDone : Oracle :=
  ⟨Except.ok [("plan", PyVal.list [PyVal.str "t"])],
   fun _ => Except.error (),
   fun _ => Except.ok "",
   fun _ => Except.ok []⟩

/-- Oracle: plan `["t"]`, extraction yields one claim, search succeeds but
the verification generation/parse fails. -/
def oFallback : Oracle :=
  ⟨Except.ok [("plan", PyVal.list [PyVal.str "t"])],
   fun _ => Except.ok [("claim", PyVal.str "c1")],
   fun _ => Except.ok "evidence",
   fun _ => Except.error ()⟩

/-- The state produced by `plan_claims` under `oAbort`/`oDone` on article
`"a"`: plan `["t"]`, everything else reset. -/
def sPlanT : VerifyState :=
  { A := "a", plan := PyVal.list [PyVal.str "t"], claims := [],
    current_index := 0, claim_results := [], legitimacy_percentage := 0,
    final_verdict := "", D := "", final_explanation := "" }

/-- State `sPlanT` with the claim `"c1"` extracted: the configuration reached
just before verification under `oAbort`/`oFallback`. -/
def sVer : VerifyState :=
  { sPlanT with claims := [PyVal.str "c1"] }

/-- The state produced by `plan_claims` under `oEmptyPlan`: empty plan. -/
def sEmptyPlan : VerifyState :=
  { A := "a", plan := PyVal.list [], claims := [], current_index := 0,
    claim_results := [], legitimacy_percentage := 0, final_verdict := "",
    D := "", final_explanation := "" }

/-- State `sEmptyPlan` after the extractor appended `"x"` despite the empty plan. -/
def sEmptyPlanX : VerifyState :=
  { sEmptyPlan with claims := [PyVal.str "x"] }

/-! ## Properties of `firstIdx` / `lastIdx` -/

lemma firstIdx_spec (c : Char) (cs : List Char) (i : Nat)
    (h : firstIdx c cs = some i) :
    cs.get? i = some c ∧ ∀ i', i' < i → cs.get? i' ≠ some c := by
  induction cs generalizing i with
  | nil => simp [firstIdx] at h
  | cons a rest ih =>
    by_cases hac : a = c
    · simp [firstIdx, hac] at h
      subst h
      exact ⟨by simp [hac], by intro i' hi'; omega⟩
    · simp [firstIdx, hac] at h
      obtain ⟨k, hk, hki⟩ := h
      subst hki
      obtain ⟨h1, h2⟩ := ih k hk
      refine ⟨by simpa using h1, ?_⟩
      intro i' hi'
      match i' with
      | 0 => simpa using hac
      | Nat.succ m => simpa using h2 m (by omega)

lemma firstIdx_complete (c : Char) (cs : List Char) (i : Nat)
    (h1 : cs.get? i = some c) (h2 : ∀ i', i' < i → cs.get? i' ≠ some c) :
    firstIdx c cs = some i := by
  induction cs generalizing i with
  | nil => simp at h1
  | cons a rest ih =>
    match i with
    | 0 =>
      simp at h1
      simp [firstIdx, h1]
    | Nat.succ k =>
      have ha : ¬ a = c := by
        have := h2 0 (by omega)
        simpa using this
      have h1' : rest.get? k = some c := by simpa using h1
      have h2' : ∀ k', k' < k → rest.get? k' ≠ some c := by
        intro k' hk'
        have := h2 (k' + 1) (by omega)
        simpa using this
      simp [firstIdx, ha, ih k h1' h2']

lemma lastIdx_none_spec (c : Char) (cs : List Char)
    (h : lastIdx c cs = Option.none) : ∀ i, cs.get? i ≠ some c := by
  induction cs with
  | nil => intro i; simp
  | cons a rest ih =>
    cases hr : lastIdx c rest with
    | some j => simp [lastIdx, hr] at h
    | none =>
      simp [lastIdx, hr] at h
      intro i
      match i with
      | 0 => simpa using h
      | Nat.succ m => simpa using ih hr m

lemma lastIdx_spec (c : Char) (cs : List Char) (j : Nat)
    (h : lastIdx c cs = some j) :
    cs.get? j = some c ∧ ∀ j', cs.get? j' = some c → j' ≤ j := by
  induction cs generalizing j with
  | nil => simp [lastIdx] at h
  | cons a rest ih =>
    cases hr : lastIdx c rest with
    | some j₀ =>
      simp [lastIdx, hr] at h
      subst h
      obtain ⟨h1, h2⟩ := ih j₀ hr
      refine ⟨by simpa using h1, ?_⟩
      intro j' hj'
      match j' with
      | 0 => omega
      | Nat.succ m =>
        have : rest.get? m = some c := by simpa using hj'
        have := h2 m this
        omega
    | none =>
      simp [lastIdx, hr] at h
      obtain ⟨hac, hj⟩ := h
      subst hj
      refine ⟨by simp [hac], ?_⟩
      intro j' hj'
      match j' with
      | 0 => omega
      | Nat.succ m =>
        have : rest.get? m = some c := by simpa using hj'
        exact absurd this (lastIdx_none_spec c rest hr m)

lemma lastIdx_complete (c : Char) (cs : List Char) (j : Nat)
    (h1 : cs.get? j = some c) (h2 : ∀ j', cs.get? j' = some c → j' ≤ j) :
    lastIdx c cs = some j := by
  induction cs generalizing j with
  | nil => simp at h1
  | cons a rest ih =>
    match j with
    | 0 =>
      have ha : a = c := by simpa using h1
      have hr : lastIdx c rest = Option.none := by
        cases hr : lastIdx c rest with
        | none => rfl
        | some k =>
          have := (lastIdx_spec c rest k hr).1
          have hk := h2 (k + 1) (by simpa using this)
          omega
      simp [lastIdx, hr, ha]
    | Nat.succ k =>
      have h1' : rest.get? k = some c := by simpa using h1
      have h2' : ∀ k', rest.get? k' = some c → k' ≤ k := by
        intro k' hk'
        have := h2 (k' + 1) (by simpa using hk')
        omega
      simp [lastIdx, ih k h1' h2']

/-- C8: `extract_json` is a pure function that applies `loads` (the stdlib
JSON parser) to exactly the substring running from the first `\x7b` of the
text to the last `\x7d` of the text (newlines are ordinary characters for
this match); it fails (raises) exactly when no such brace-delimited
substring exists — no `\x7b` strictly before a `\x7d` — or when `loads`
fails on that substring, so it never returns partial data. -/
theorem extract_json_contract :
    (∀ (loads : String → Option PyVal) (text : String) (i j : Nat),
        text.data.get? i = some '\x7b' →
        (∀ i', i' < i → text.data.get? i' ≠ some '\x7b') →
        text.data.get? j = some '\x7d' →
        (∀ j', text.data.get? j' = some '\x7d' → j' ≤ j) →
        i < j →
        extract_json loads text =
          loads (String.mk ((text.data.drop i).take (j - i + 1)))) ∧
    (∀ (loads : String → Option PyVal) (text : String),
        (¬ ∃ i j, i < j ∧ text.data.get? i = some '\x7b' ∧
            text.data.get? j = some '\x7d') →
        extract_json loads text = Option.none) := by
  constructor
  · intro loads text i j h1 h2 h3 h4 hij
    have hf : firstIdx '\x7b' text.data = some i := firstIdx_complete _ _ _ h1 h2
    have hl : lastIdx '\x7d' text.data = some j := lastIdx_complete _ _ _ h3 h4
    simp [extract_json, hf, hl, hij]
  · intro loads text hno
    cases hf : firstIdx '\x7b' text.data with
    | none => simp [extract_json, hf]
    | some i =>
      cases hl : lastIdx '\x7d' text.data with
      | none => simp [extract_json, hf, hl]
      | some j =>
        have hi := (firstIdx_spec _ _ _ hf).1
        have hj := (lastIdx_spec _ _ _ hl).1
        have hnij : ¬ i < j := fun h => hno ⟨i, j, h, hi, hj⟩
        simp [extract_json, hf, hl, hnij]

/-- Witness for C8: on `"a\x7bb\x7d"` the first `\x7b` is at index 1 and the
last `\x7d` at index 3, so `extract_json` feeds exactly `"\x7bb\x7d"` to the
JSON parser. -/
theorem extract_json_contract_witness :
    extract_json (fun s => some (PyVal.str s)) "a\x7bb\x7d" =
      some (PyVal.str "\x7bb\x7d") := by
  have h := extract_json_contract.1 (fun s => some (PyVal.str s)) "a\x7bb\x7d" 1 3
    (by decide)
    (by
      intro i' hi'
      have h0 : i' = 0 := by omega
      rw [h0]
      decide)
    (by decide)
    (by
      intro j' hj'
      by_contra hc
      push_neg at hc
      have hlen : ("a\x7bb\x7d".data).length = 4 := by decide
      have : ("a\x7bb\x7d".data).get? j' = Option.none :=
        List.get?_eq_none.2 (by omega)
      rw [this] at hj'
      exact Option.noConfusion hj')
    (by omega)
  rw [h]
  rfl

/-! ## The Score Aggregator (C5, C10) -/

lemma div_mul_hundred (c len : ℚ) : c / len * 100 = 100 * c / len := by
  ring

/-- Behaviour of `verify_claim` when the search call returned and the
generation response parsed: the stored verdict and explanation are the
parsed fields with defaults `"not legit"` / `""`. -/
lemma verify_claim_gen_ok (q : String) (d : PyDict) (s : VerifyState)
    (c : PyVal) (hc : s.claims[s.current_index]? = some c) :
    verify_claim (Except.ok q) (Except.ok d) s = Except.ok
      { s with
        claim_results := s.claim_results ++
          [⟨c, dictGet d "verdict" (PyVal.str "not legit"),
              dictGet d "explanation" (PyVal.str "")⟩]
        current_index := s.current_index + 1 } := by
  simp [verify_claim, hc]

/-- C5: the Score Aggregator is a pure function of `claim_results`.  On an
empty list it sets the percentage to `0` and the label to `"Fake"`; on a
non-empty list it stores `100 * (count of "legit" verdicts) / total`,
rounded to 2 decimal places, and the label is `"Verified"` exactly when
that (unrounded) percentage is at least `60`, `"Unverified"` exactly when
it is below `60` — so a percentage of exactly `60` gives `"Verified"` and
`59.99` gives `"Unverified"`. -/
theorem compute_score_contract (s : VerifyState) :
    (s.claim_results = [] →
      (compute_score s).legitimacy_percentage = 0 ∧
      (compute_score s).final_verdict = "Fake" ∧
      (compute_score s).D = "Fake") ∧
    (s.claim_results ≠ [] →
      (compute_score s).legitimacy_percentage =
        round2 (100 * (s.claim_results.countP
            (fun r => pyEqStr r.verdict "legit") : ℚ) /
          (s.claim_results.length : ℚ)) ∧
      ((compute_score s).final_verdict = "Verified" ↔
        60 ≤ 100 * (s.claim_results.countP
            (fun r => pyEqStr r.verdict "legit") : ℚ) /
          (s.claim_results.length : ℚ)) ∧
      ((compute_score s).final_verdict = "Unverified" ↔
        100 * (s.claim_results.countP
            (fun r => pyEqStr r.verdict "legit") : ℚ) /
          (s.claim_results.length : ℚ) < 60)) := by
  constructor
  · intro h
    simp [compute_score, h]
  · intro h
    have hne : ¬ s.claim_results.isEmpty = true := by
      simpa [List.isEmpty_iff] using h
    simp only [compute_score, hne, if_false, Bool.false_eq_true]
    rw [div_mul_hundred]
    refine ⟨rfl, ?_, ?_⟩
    · by_cases hp : (60 : ℚ) ≤ 100 * (s.claim_results.countP
          (fun r => pyEqStr r.verdict "legit") : ℚ) / (s.claim_results.length : ℚ)
      · simp [hp]
      · simp [hp]
    · by_cases hp : (60 : ℚ) ≤ 100 * (s.claim_results.countP
          (fun r => pyEqStr r.verdict "legit") : ℚ) / (s.claim_results.length : ℚ)
      · simp only [if_pos hp]
        constructor
        · intro hlit
          exact absurd hlit (by decide)
        · intro hlt
          linarith
      · simp only [if_neg hp]
        constructor
        · intro _
          exact lt_of_not_le hp
        · intro _
          trivial

/-- Witness for C5: three `"legit"` verdicts out of five give an exact
percentage of `60`, hence label `"Verified"` and stored percentage `60`. -/
theorem compute_score_contract_witness :
    (compute_score sFive).final_verdict = "Verified" ∧
    (compute_score sFive).legitimacy_percentage = 60 := by
  have h := (compute_score_contract sFive).2 (by simp [sFive])
  have hcount : (sFive.claim_results.countP
      (fun r => pyEqStr r.verdict "legit") : ℚ) = 3 := by
    simp [sFive, resLegit, resNot, pyEqStr, List.countP_cons]
  have hlen : (sFive.claim_results.length : ℚ) = 5 := by
    simp [sFive]
  have hp : 100 * (sFive.claim_results.countP
      (fun r => pyEqStr r.verdict "legit") : ℚ) /
      (sFive.claim_results.length : ℚ) = 60 := by
    rw [hcount, hlen]; norm_num
  refine ⟨h.2.1.2 (by rw [hp]), ?_⟩
  rw [h.1, hp]
  have : round ((60 : ℚ) * 100) = 6000 := by norm_num
  simp [round2, this]
  norm_num

/-! ## The Report Builder (C7) -/

lemma foldl_append_blocks (rs : List ClaimResult) (acc : List String) :
    rs.foldl (fun acc r => acc ++ [renderBlock r]) acc =
      acc ++ rs.map renderBlock := by
  induction rs generalizing acc with
  | nil => simp
  | cons r rest ih => simp [List.foldl_cons, ih]

/-- C7: the Report Builder is a pure, order-preserving function of
`claim_results`: the rendered string of an empty list is `""`; for a
non-empty list it is the head's fixed-format block followed — after a
blank-line separator — by the rendering of the tail, so blocks appear in
exactly the order of `claim_results`; and the `final_explanation` node only
writes this string into the state, leaving `claim_results` untouched. -/
theorem report_builder_contract :
    formatResults [] = "" ∧
    (∀ r : ClaimResult, formatResults [r] = renderBlock r) ∧
    (∀ (r r' : ClaimResult) (rs : List ClaimResult),
      formatResults (r :: r' :: rs) =
        renderBlock r ++ "\n" ++ formatResults (r' :: rs)) ∧
    (∀ s : VerifyState,
      (final_explanation s).final_explanation = formatResults s.claim_results ∧
      (final_explanation s).claim_results = s.claim_results) := by
  refine ⟨rfl, fun r => rfl, ?_, ?_⟩
  · intro r r' rs
    simp only [formatResults, foldl_append_blocks, List.nil_append,
      List.map_cons, joinSep]
  · intro s
    exact ⟨rfl, rfl⟩

/-! ## Verifier field handling (C9, C10) -/

/-- C9: when the verification response parses but lacks a field, the
defaults of `.get` apply: a missing `"verdict"` stores `"not legit"`, a
missing `"explanation"` stores the empty string — which is not the
`"Verification failed."` text of the exception fallback. -/
theorem verify_claim_missing_fields (q : String) (d : PyDict)
    (s : VerifyState) (c : PyVal)
    (hc : s.claims[s.current_index]? = some c) :
    (lookupD d "verdict" = Option.none →
      verify_claim (Except.ok q) (Except.ok d) s = Except.ok
        { s with
          claim_results := s.claim_results ++
            [⟨c, PyVal.str "not legit", dictGet d "explanation" (PyVal.str "")⟩]
          current_index := s.current_index + 1 }) ∧
    (lookupD d "explanation" = Option.none →
      verify_claim (Except.ok q) (Except.ok d) s = Except.ok
        { s with
          claim_results := s.claim_results ++
            [⟨c, dictGet d "verdict" (PyVal.str "not legit"), PyVal.str ""⟩]
          current_index := s.current_index + 1 } ∧
      (PyVal.str "" : PyVal) ≠ PyVal.str "Verification failed.") := by
  constructor
  · intro hv
    rw [verify_claim_gen_ok q d s c hc]
    simp [dictGet, hv]
  · intro he
    refine ⟨?_, by simp⟩
    rw [verify_claim_gen_ok q d s c hc]
    simp [dictGet, he]

/-- Witness for C9: a parsed dict with neither field yields verdict
`"not legit"` and explanation `""`. -/
theorem verify_claim_missing_fields_witness :
    verify_claim (Except.ok "ev") (Except.ok [("other", PyVal.none)]) sOne =
      Except.ok
        { sOne with
          claim_results := [⟨PyVal.str "c1", PyVal.str "not legit", PyVal.str ""⟩]
          current_index := 1 } := by
  have h := (verify_claim_missing_fields "ev" [("other", PyVal.none)] sOne
    (PyVal.str "c1") rfl).1 rfl
  exact h

/-- C10: the Verifier stores the parsed `"verdict"` value unvalidated, and
the Aggregator counts a result as legit exactly when its verdict is the
string `"legit"` character for character; in particular `"Legit"` does not
count. -/
theorem verdict_stored_and_counted :
    (∀ (q : String) (d : PyDict) (s : VerifyState) (c w : PyVal),
        s.claims[s.current_index]? = some c →
        lookupD d "verdict" = some w →
        verify_claim (Except.ok q) (Except.ok d) s = Except.ok
          { s with
            claim_results := s.claim_results ++
              [⟨c, w, dictGet d "explanation" (PyVal.str "")⟩]
            current_index := s.current_index + 1 }) ∧
    (∀ v : PyVal, pyEqStr v "legit" = true ↔ v = PyVal.str "legit") ∧
    (∀ s : VerifyState, s.claim_results ≠ [] →
        (compute_score s).legitimacy_percentage =
          round2 (100 * (s.claim_results.countP
              (fun r => pyEqStr r.verdict "legit") : ℚ) /
            (s.claim_results.length : ℚ))) ∧
    pyEqStr (PyVal.str "Legit") "legit" = false := by
  refine ⟨?_, ?_, ?_, by decide⟩
  · intro q d s c w hc hw
    rw [verify_claim_gen_ok q d s c hc]
    simp [dictGet, hw]
  · intro v
    cases v <;> simp [pyEqStr]
  · intro s h
    have hne : ¬ s.claim_results.isEmpty = true := by
      simpa [List.isEmpty_iff] using h
    simp only [compute_score, hne, if_false, Bool.false_eq_true]
    rw [div_mul_hundred]

/-- Witness for C10: the verdict `"Legit"` is stored as-is, and the
aggregate over that single result is `0` percent. -/
theorem verdict_stored_and_counted_witness :
    verify_claim (Except.ok "ev") (Except.ok [("verdict", PyVal.str "Legit")]) sOne =
      Except.ok
        { sOne with
          claim_results := [⟨PyVal.str "c1", PyVal.str "Legit", PyVal.str ""⟩]
          current_index := 1 } ∧
    (compute_score sCap).legitimacy_percentage = 0 := by
  refine ⟨verdict_stored_and_counted.1 "ev" [("verdict", PyVal.str "Legit")] sOne
    (PyVal.str "c1") (PyVal.str "Legit") rfl rfl, ?_⟩
  have h := verdict_stored_and_counted.2.2.1 sCap (by simp [sCap])
  have hcount : (sCap.claim_results.countP
      (fun r => pyEqStr r.verdict "legit") : ℚ) = 0 := by
    simp [sCap, resCap, pyEqStr]
  rw [h, hcount]
  simp [round2]

/-! ## Shape lemmas for the node functions -/

lemma extract_next_claim_ok (r : Except Unit PyDict) (s s' : VerifyState)
    (h : extract_next_claim r s = Except.ok s') :
    s'.claim_results = s.claim_results ∧
    s'.current_index = s.current_index ∧
    s'.plan = s.plan ∧
    (s'.claims = s.claims ∨ ∃ cl, s'.claims = s.claims ++ [cl]) := by
  cases r with
  | error u =>
    have he : extract_next_claim (Except.error u) s = Except.ok s := rfl
    rw [he] at h
    cases h
    exact ⟨rfl, rfl, rfl, Or.inl rfl⟩
  | ok d =>
    unfold extract_next_claim at h
    dsimp only at h
    by_cases hd : pyTruthy (dictGet d "done" PyVal.none) = true
    · rw [if_pos hd] at h
      cases h
      exact ⟨rfl, rfl, rfl, Or.inl rfl⟩
    · rw [if_neg hd] at h
      cases hc : lookupD d "claim" with
      | some c =>
        rw [hc] at h
        cases h
        exact ⟨rfl, rfl, rfl, Or.inr ⟨c, rfl⟩⟩
      | none =>
        rw [hc] at h
        exact absurd h (by simp)

lemma verify_claim_ok_shape (search : Except Unit String)
    (gen : Except Unit PyDict) (s s' : VerifyState)
    (h : verify_claim search gen s = Except.ok s') :
    s.current_index < s.claims.length ∧
    s'.claims = s.claims ∧
    s'.plan = s.plan ∧
    s'.current_index = s.current_index + 1 ∧
    s'.claim_results.length = s.claim_results.length + 1 := by
  unfold verify_claim at h
  dsimp only at h
  cases hcl : s.claims[s.current_index]? with
  | none =>
    rw [hcl] at h
    exact absurd h (by simp)
  | some c =>
    rw [hcl] at h
    have hlt : s.current_index < s.claims.length := by
      by_contra hge
      have hnone : s.claims[s.current_index]? = Option.none :=
        List.getElem?_eq_none (by omega)
      rw [hnone] at hcl
      exact Option.noConfusion hcl
    cases search with
    | error u => simp at h
    | ok q =>
      cases h
      exact ⟨hlt, rfl, rfl, rfl, by simp⟩

lemma compute_score_shape (s : VerifyState) :
    (compute_score s).claim_results = s.claim_results ∧
    (compute_score s).current_index = s.current_index ∧
    (compute_score s).claims = s.claims ∧
    (compute_score s).plan = s.plan := by
  unfold compute_score
  dsimp only
  by_cases hres : s.claim_results.isEmpty = true
  · rw [if_pos hres]
    exact ⟨rfl, rfl, rfl, rfl⟩
  · rw [if_neg hres]
    exact ⟨rfl, rfl, rfl, rfl⟩

/-! ## The index invariant (C6) -/

/-- The spec's index invariant on pipeline states. -/
def Inv (s : VerifyState) : Prop :=
  s.claim_results.length = s.current_index ∧
  s.current_index ≤ s.claims.length

lemma step_preserves_inv (o : Oracle) (c c' : Config)
    (h : Inv c.state) (hs : step o c = Except.ok c') : Inv c'.state := by
  obtain ⟨node, e, v, s⟩ := c
  dsimp only at h
  cases node with
  | plan =>
    cases hs
    simp [Inv, plan_claims]
  | extract =>
    simp only [step] at hs
    cases hx : extract_next_claim (o.extractGen e) s with
    | error err => rw [hx] at hs; exact absurd hs (by simp)
    | ok s' =>
      rw [hx] at hs
      dsimp only at hs
      cases hr : should_extract_more s' with
      | none => rw [hr] at hs; exact absurd hs (by simp)
      | some n =>
        rw [hr] at hs
        cases hs
        dsimp only
        obtain ⟨h1, h2, _, h4⟩ := extract_next_claim_ok _ _ _ hx
        obtain ⟨hL, hI⟩ := h
        refine ⟨(by rw [h1, h2]; exact hL), ?_⟩
        rw [h2]
        rcases h4 with h4 | ⟨cl, h4⟩
        · rw [h4]; exact hI
        · rw [h4]
          simp only [List.length_append, List.length_cons, List.length_nil]
          omega
  | verify =>
    simp only [step] at hs
    cases hx : verify_claim (o.verifySearch v) (o.verifyGen v) s with
    | error err => rw [hx] at hs; exact absurd hs (by simp)
    | ok s' =>
      rw [hx] at hs
      dsimp only at hs
      cases hs
      dsimp only
      obtain ⟨hlt, hcl, _, hidx, hres⟩ := verify_claim_ok_shape _ _ _ _ hx
      obtain ⟨hL, _⟩ := h
      constructor
      · rw [hres, hidx, hL]
      · rw [hidx, hcl]
        omega
  | score =>
    cases hs
    obtain ⟨h1, h2, h3, _⟩ := compute_score_shape s
    exact ⟨(by rw [h1, h2]; exact h.1), (by rw [h2, h3]; exact h.2)⟩
  | explain =>
    cases hs
    simpa [Inv, final_explanation] using h
  | finished =>
    cases hs
    exact h

lemma run_preserves_inv (o : Oracle) (k : Nat) (c c' : Config)
    (h : Inv c.state) (hr : run o k c = Except.ok c') : Inv c'.state := by
  induction k generalizing c with
  | zero => cases hr; exact h
  | succ k' ih =>
    simp only [run] at hr
    cases hst : step o c with
    | error err => rw [hst] at hr; exact absurd hr (by simp)
    | ok c₁ =>
      rw [hst] at hr
      exact ih c₁ (step_preserves_inv o c c₁ h hst) hr

/-- C6: on every configuration reachable from the start of a run,
`len(claim_results) = current_index` and `current_index ≤ len(claims)`
(in particular after planner initialization and after each completed
Verifier iteration); a completed Verifier iteration increments
`current_index` by exactly 1; and `plan_claims` starts the counters at 0. -/
theorem index_invariant (o : Oracle) :
    (∀ (a : String) (k : Nat) (c : Config),
      run o k (initConfig a) = Except.ok c →
      c.state.claim_results.length = c.state.current_index ∧
      c.state.current_index ≤ c.state.claims.length) ∧
    (∀ (e v : Nat) (s : VerifyState) (c' : Config),
      step o ⟨Node.verify, e, v, s⟩ = Except.ok c' →
      c'.state.current_index = s.current_index + 1) ∧
    (∀ (r : Except Unit PyDict) (s : VerifyState),
      (plan_claims r s).current_index = 0 ∧
      (plan_claims r s).claim_results = []) := by
  refine ⟨?_, ?_, ?_⟩
  · intro a k c hr
    exact run_preserves_inv o k (initConfig a) c (by simp [Inv, initConfig, initState]) hr
  · intro e v s c' hs
    simp only [step] at hs
    cases hx : verify_claim (o.verifySearch v) (o.verifyGen v) s with
    | error err => rw [hx] at hs; exact absurd hs (by simp)
    | ok s' =>
      rw [hx] at hs
      dsimp only at hs
      cases hs
      exact (verify_claim_ok_shape _ _ _ _ hx).2.2.2.1
  · intro r s
    exact ⟨rfl, rfl⟩

/-- Witness for C6: the invariant evaluated on the configuration reached
after two steps under `oDone`. -/
theorem index_invariant_witness :
    sPlanT.claim_results.length = sPlanT.current_index ∧
    sPlanT.current_index ≤ sPlanT.claims.length :=
  (index_invariant oDone).1 "a" 2 ⟨Node.extract, 1, 0, sPlanT⟩ rfl

/-! ## Error propagation in the Verifier (C1, C2) -/

/-- Counterexample for C1: under `oAbort` (plan `["t"]`, one claim
extracted, then the search tool raises) the whole run aborts with an
uncaught exception after 3 steps — the pipeline does not reach aggregation
and produces no final label. -/
theorem run_aborts_on_search_error :
    run oAbort 3 (initConfig "a") = Except.error () := rfl

/-- C1 (amended): a search failure during claim verification is NOT
degraded to a default: `search_tool.run` is called outside the `try`, so
the exception propagates out of the step and aborts the run. -/
theorem search_failure_aborts (o : Oracle) (e v : Nat) (s : VerifyState)
    (c : PyVal)
    (hc : s.claims[s.current_index]? = some c)
    (hs : o.verifySearch v = Except.error ()) :
    step o ⟨Node.verify, e, v, s⟩ = Except.error () := by
  simp [step, verify_claim, hc, hs]

/-- Witness for C1: the abort at a concrete verification configuration. -/
theorem search_failure_aborts_witness :
    step oAbort ⟨Node.verify, 1, 0, sVer⟩ = Except.error () :=
  search_failure_aborts oAbort 1 0 sVer (PyVal.str "c1") rfl rfl

/-- Counterexample for C2: with the search call failing for the claim, no
`ClaimResult` at all is appended — the run errors out instead of recording
the fallback `{"not legit", "Verification failed."}` and never reaches
aggregation (the error is absorbing for any remaining fuel). -/
theorem verify_search_error_no_fallback :
    run oAbort 5 (initConfig "b") = Except.error () := rfl

/-- C2 (amended): if the generation call or its parse fails for a claim
while the search call succeeded, the appended `ClaimResult` is exactly
`verdict = "not legit"`, `explanation = "Verification failed."`, the index
advances, and control continues to the next verification or to
aggregation; a failing search call instead propagates (see C1). -/
theorem verify_gen_failure_fallback (o : Oracle) (e v : Nat)
    (s : VerifyState) (c : PyVal) (q : String)
    (hc : s.claims[s.current_index]? = some c)
    (hs : o.verifySearch v = Except.ok q)
    (hg : o.verifyGen v = Except.error ()) :
    step o ⟨Node.verify, e, v, s⟩ = Except.ok
      ⟨(if s.current_index + 1 < s.claims.length then Node.verify
        else Node.score), e, v + 1,
       { s with
         claim_results := s.claim_results ++
           [⟨c, PyVal.str "not legit", PyVal.str "Verification failed."⟩]
         current_index := s.current_index + 1 }⟩ := by
  simp [step, verify_claim, hc, hs, hg, should_continue_verification]

/-- Witness for C2: the fallback result at a concrete configuration,
transitioning to aggregation. -/
theorem verify_gen_failure_fallback_witness :
    step oFallback ⟨Node.verify, 1, 0, sVer⟩ = Except.ok
      ⟨Node.score, 1, 1,
       { sVer with
         claim_results := [⟨PyVal.str "c1", PyVal.str "not legit",
           PyVal.str "Verification failed."⟩]
         current_index := 1 }⟩ :=
  verify_gen_failure_fallback oFallback 1 0 sVer (PyVal.str "c1") "evidence"
    rfl rfl rfl

/-! ## The extraction loop (C3, C4) -/

/-- Counterexample for C3: the planner→extractor edge is unconditional, so
with an empty plan (N = 0) the Extractor still runs, and here performs one
successful append (1 > N) before transitioning — and it transitions to the
verification node, not directly to aggregation. -/
theorem empty_plan_extractor_runs :
    run oEmptyPlan 2 (initConfig "a") =
      Except.ok ⟨Node.verify, 1, 0, sEmptyPlanX⟩ := rfl

/-- Invariant used for the extraction bound: the plan is fixed, the number
of extracted claims is at most `max 1 N`, strictly below `max 1 N` whenever
the extractor is about to run again, and the planner node is never
re-entered. -/
def BoundInv (p₀ : PyVal) (N : Nat) (c : Config) : Prop :=
  c.state.plan = p₀ ∧
  c.state.claims.length ≤ max 1 N ∧
  (c.node = Node.extract → c.state.claims.length < max 1 N) ∧
  c.node ≠ Node.plan

lemma step_preserves_bound (o : Oracle) (p₀ : PyVal) (N : Nat)
    (c c' : Config) (hN : pyLen p₀ = some N)
    (h : BoundInv p₀ N c) (hs : step o c = Except.ok c') :
    BoundInv p₀ N c' := by
  obtain ⟨node, e, v, s⟩ := c
  obtain ⟨hplan, hle, hlt, hnp⟩ := h
  dsimp only at hplan hle hlt hnp
  cases node with
  | plan => exact absurd rfl hnp
  | extract =>
    simp only [step] at hs
    cases hx : extract_next_claim (o.extractGen e) s with
    | error err => rw [hx] at hs; exact absurd hs (by simp)
    | ok s' =>
      rw [hx] at hs
      dsimp only at hs
      cases hr : should_extract_more s' with
      | none => rw [hr] at hs; exact absurd hs (by simp)
      | some n =>
        rw [hr] at hs
        cases hs
        obtain ⟨_, _, hp, h4⟩ := extract_next_claim_ok _ _ _ hx
        have hlt' : s.claims.length < max 1 N := hlt rfl
        have hlen' : s'.claims.length ≤ s.claims.length + 1 := by
          rcases h4 with h4 | ⟨cl, h4⟩ <;> simp [h4]
        have hplan' : s'.plan = p₀ := by rw [hp, hplan]
        have hrn : (if s'.claims.length < N then Node.extract else Node.verify) = n := by
          unfold should_extract_more at hr
          rw [hplan', hN] at hr
          simpa using hr
        refine ⟨hplan', (by show s'.claims.length ≤ max 1 N; omega), ?_, ?_⟩
        · intro hn
          show s'.claims.length < max 1 N
          have hn' : n = Node.extract := hn
          rw [← hrn] at hn'
          split at hn'
          · rename_i hcond
            have hNle : N ≤ max 1 N := le_max_right 1 N
            omega
          · exact absurd hn' (by simp)
        · show n ≠ Node.plan
          intro hn'
          rw [← hrn] at hn'
          split at hn' <;> exact Node.noConfusion hn'
  | verify =>
    simp only [step] at hs
    cases hx : verify_claim (o.verifySearch v) (o.verifyGen v) s with
    | error err => rw [hx] at hs; exact absurd hs (by simp)
    | ok s' =>
      rw [hx] at hs
      dsimp only at hs
      cases hs
      obtain ⟨_, hcl, hp, _, _⟩ := verify_claim_ok_shape _ _ _ _ hx
      refine ⟨(by rw [hp, hplan]), (by rw [hcl]; exact hle), ?_, ?_⟩
      · intro hn
        unfold should_continue_verification at hn
        split at hn <;> exact Node.noConfusion hn
      · unfold should_continue_verification
        split <;> simp
  | score =>
    cases hs
    obtain ⟨_, _, h3, h4⟩ := compute_score_shape s
    refine ⟨(by rw [h4, hplan]), (by rw [h3]; exact hle), ?_, ?_⟩
    · intro hcontra
      exact absurd hcontra (by simp)
    · simp
  | explain =>
    cases hs
    refine ⟨hplan, hle, ?_, ?_⟩
    · intro hcontra
      exact absurd hcontra (by simp)
    · simp
  | finished =>
    cases hs
    refine ⟨hplan, hle, ?_, hnp⟩
    intro hcontra
    exact hlt hcontra

lemma run_preserves_bound (o : Oracle) (p₀ : PyVal) (N : Nat) (k : Nat)
    (c c' : Config) (hN : pyLen p₀ = some N)
    (h : BoundInv p₀ N c) (hr : run o k c = Except.ok c') :
    BoundInv p₀ N c' := by
  induction k generalizing c with
  | zero => cases hr; exact h
  | succ k' ih =>
    simp only [run] at hr
    cases hst : step o c with
    | error err => rw [hst] at hr; exact absurd hr (by simp)
    | ok c₁ =>
      rw [hst] at hr
      exact ih c₁ (step_preserves_bound o p₀ N c c₁ hN h hst) hr

/-- C3 (amended): the `plan_claims → extract_next_claim` edge is
unconditional, so the Extractor always runs at least once — even on an
empty plan, where its single invocation may still append one claim before
moving to the verification node.  For a plan that is a list of length `N`,
starting the extraction loop with zero claims, every reachable
configuration carries at most `max 1 N` extracted claims: at most `N`
successful appends for `N ≥ 1`, and at most one for `N = 0`. -/
theorem extraction_bound (o : Oracle) :
    (∀ (e v : Nat) (s : VerifyState),
      step o ⟨Node.plan, e, v, s⟩ =
        Except.ok ⟨Node.extract, e, v, plan_claims o.planGen s⟩) ∧
    (∀ (N k e v : Nat) (s : VerifyState) (c' : Config),
      pyLen s.plan = some N →
      s.claims = [] →
      run o k ⟨Node.extract, e, v, s⟩ = Except.ok c' →
      c'.state.claims.length ≤ max 1 N) := by
  constructor
  · intro e v s
    rfl
  · intro N k e v s c' hN hcl hr
    have h0 : BoundInv s.plan N ⟨Node.extract, e, v, s⟩ := by
      refine ⟨rfl, ?_, ?_, (by simp)⟩
      · rw [hcl]
        simp
      · intro _
        rw [hcl]
        simp only [List.length_nil]
        exact lt_of_lt_of_le Nat.zero_lt_one (le_max_left 1 N)
    exact (run_preserves_bound o s.plan N k _ c' hN h0 hr).2.1

/-- Witness for C3: with the empty plan (N = 0), one step of the extraction
loop appends one claim — the bound `max 1 0 = 1` is attained. -/
theorem extraction_bound_witness :
    step oEmptyPlan ⟨Node.plan, 0, 0, initState "a"⟩ =
      Except.ok ⟨Node.extract, 0, 0, plan_claims oEmptyPlan.planGen (initState "a")⟩ ∧
    sEmptyPlanX.claims.length ≤ max 1 0 :=
  ⟨(extraction_bound oEmptyPlan).1 0 0 (initState "a"),
   (extraction_bound oEmptyPlan).2 0 1 0 0 sEmptyPlan
     ⟨Node.verify, 1, 0, sEmptyPlanX⟩ rfl rfl rfl⟩

/-- Counterexample for C4: under `oDone` every extraction parse fails, so
every iteration synthesizes the done signal — yet after three steps the
run is again at the extraction node with the state unchanged: the loop
re-entered extraction after done was signaled (the router only compares
counts, and 0 < 1 planned topic). -/
theorem done_reenters_extraction :
    run oDone 3 (initConfig "a") =
      Except.ok ⟨Node.extract, 2, 0, sPlanT⟩ := rfl

/-- C4 (amended): an extraction iteration that receives — or, after a
parse failure, synthesizes — the done signal leaves the state unchanged,
but it terminates the loop only when `len(claims) < len(plan)` fails: with
fewer extracted claims than planned topics the router re-enters
extraction, so under a collaborator that keeps signaling done the
extraction loop never terminates (for every fuel `k` the run is still at
the extraction node, state unchanged). -/
theorem done_behavior (o : Oracle) :
    (∀ s : VerifyState, extract_next_claim (Except.error ()) s = Except.ok s) ∧
    (∀ (d : PyDict) (s : VerifyState),
      pyTruthy (dictGet d "done" PyVal.none) = true →
      extract_next_claim (Except.ok d) s = Except.ok s) ∧
    (∀ (N k e v : Nat) (s : VerifyState),
      (∀ i, o.extractGen i = Except.error ()) →
      pyLen s.plan = some N →
      s.claims.length < N →
      run o k ⟨Node.extract, e, v, s⟩ =
        Except.ok ⟨Node.extract, e + k, v, s⟩) := by
  refine ⟨fun s => rfl, ?_, ?_⟩
  · intro d s h
    simp [extract_next_claim, h]
  · intro N k e v s hgen hN hlt
    induction k generalizing e with
    | zero => simp [run]
    | succ k' ih =>
      have hstep : step o ⟨Node.extract, e, v, s⟩ =
          Except.ok ⟨Node.extract, e + 1, v, s⟩ := by
        have hE : extract_next_claim (Except.error ()) s = Except.ok s := rfl
        simp [step, hgen e, hE, should_extract_more, hN, hlt]
      simp only [run, hstep]
      have harith : e + 1 + k' = e + (k' + 1) := by omega
      rw [ih (e + 1), harith]

/-- Witness for C4: under `oDone` (plan `["t"]`, every parse failing), the
extraction loop is still at the extraction node with unchanged state after
3 more iterations. -/
theorem done_behavior_witness :
    run oDone 3 ⟨Node.extract, 0, 0, sPlanT⟩ =
      Except.ok ⟨Node.extract, 0 + 3, 0, sPlanT⟩ :=
  (done_behavior oDone).2.2 1 3 0 0 sPlanT (fun _ => rfl) rfl (by simp [sPlanT])

end FakeNews
